import Mathlib

/-!
Verification of the CMH document-management core against its specification.

The development shallowly embeds three parts of the source:

* `FileEncryption.encrypt_file` / `FileEncryption.decrypt_file`
  (`app/auth/secruity.py`): chunked AES-GCM file encryption.  The AEAD
  primitive itself is an external library call, so the embedding is
  parameterised by the sealing and opening functions `enc`/`dec`; theorems
  that need the library's documented behaviour (round-trip, ciphertext
  length, authentication) take it as a hypothesis.
* `TamperProofLog` (`app/audit/logger.py`): the hash-chained audit log.
  The BLAKE2b-256 digest of the canonical JSON serialization is modelled
  as an abstract function `hf` on the hashed fields; tamper-detection
  theorems assume it is injective (the standard idealisation of a
  collision-resistant hash).
* `DocumentProcessor.process_upload` (`app/documents/processing.py`): the
  upload pipeline, modelled as a pure function from an environment
  (detected MIME type, OCR outcome, success/failure of each effectful
  step) to the returned result, the list of audit events appended, and
  the set of files left on disk.

Bytes are modelled as natural numbers, byte strings as `List Nat`.
-/

namespace CMH

/-! ## Chunked file encryption (`app/auth/secruity.py`, `FileEncryption`) -/

/-- Reading a stream `chunkSize` bytes at a time until `read` returns empty,
as both `encrypt_file` and `decrypt_file` do (`while True: chunk =
infile.read(n); if not chunk: break`).  `chunksOf 0 l = []` because in Python
`read(0)` returns the empty bytes object, which ends the loop at once. -/
def chunksOf : Nat → List Nat → List (List Nat)
  | 0, _ => []
  | _ + 1, [] => []
  | n + 1, a :: l => ((a :: l).take (n + 1)) :: chunksOf (n + 1) ((a :: l).drop (n + 1))
termination_by _ l => l.length
decreasing_by
  simp only [List.drop_succ_cons, List.length_drop, List.length_cons]
  omega

/-- `FileEncryption.encrypt_file` (lines 66-84): write the 12-byte nonce,
then seal each plaintext chunk with `aesgcm.encrypt(nonce, chunk, None)` —
the same `nonce` for every chunk — and append the sealed chunks.  `enc` is
the AES-GCM sealing function (key, nonce, plaintext ↦ ciphertext‖tag). -/
def encryptFile (enc : List Nat → List Nat → List Nat → List Nat)
    (key nonce : List Nat) (chunkSize : Nat) (pt : List Nat) : List Nat :=
  nonce ++ ((chunksOf chunkSize pt).map (enc key nonce)).flatten

/-- The nonce passed to `aesgcm.encrypt` for each sealed chunk of
`encrypt_file` (line 81): the one per-file `nonce`, repeated. -/
def encryptFileSealNonces (chunkSize : Nat) (nonce : List Nat)
    (pt : List Nat) : List (List Nat) :=
  (chunksOf chunkSize pt).map (fun _ => nonce)

/-- `DocumentProcessor._encrypt_document` (lines 254-281) encrypts the
converted image with `encrypt_file` and then seals the OCR text with
`encryptor.aesgcm.encrypt(nonce, ocr_text, None)`, reusing the nonce
returned by `encrypt_file`.  This lists the nonce of every AEAD seal the
document encryption performs, in order: one per file chunk, then one for
the text blob. -/
def encryptDocumentSealNonces (chunkSize : Nat) (nonce : List Nat)
    (filePt : List Nat) : List (List Nat) :=
  encryptFileSealNonces chunkSize nonce filePt ++ [nonce]

/-- The chunk-processing loop of `decrypt_file`: open each sealed chunk
with `dec` (AES-GCM `decrypt`, returning `none` on `InvalidTag`), writing
each recovered plaintext to the output.  Returns the bytes written to the
output file and whether the loop finished without an exception; on the
first failure the exception propagates, so nothing after it is written. -/
def decryptChunkLoop (dec : List Nat → List Nat → List Nat → Option (List Nat))
    (key nonce : List Nat) : List (List Nat) → List Nat × Bool
  | [] => ([], true)
  | c :: rest =>
    match dec key nonce c with
    | Option.none => ([], false)
    | Option.some pt =>
      let r := decryptChunkLoop dec key nonce rest
      (pt ++ r.1, r.2)

/-- `FileEncryption.decrypt_file` (lines 86-104): read the 12-byte nonce,
then repeatedly read `chunk_size + 16` bytes and open each piece with
`aesgcm.decrypt(nonce, chunk, None)`.  Result: the bytes written to the
output file, and `true` iff no chunk failed authentication. -/
def decryptFile (dec : List Nat → List Nat → List Nat → Option (List Nat))
    (key : List Nat) (chunkSize : Nat) (file : List Nat) : List Nat × Bool :=
  let nonce := file.take 12
  let body := file.drop 12
  decryptChunkLoop dec key nonce (chunksOf (chunkSize + 16) body)

/-! ### Basic chunking lemmas -/

theorem chunksOf_nil (n : Nat) : chunksOf n [] = [] := by
  cases n <;> simp [chunksOf]

theorem chunksOf_pos (n : Nat) (l : List Nat) (hn : 0 < n) (hl : l ≠ []) :
    chunksOf n l = l.take n :: chunksOf n (l.drop n) := by
  cases n with
  | zero => omega
  | succ m =>
    cases l with
    | nil => exact absurd rfl hl
    | cons a t => simp [chunksOf]

/-- Re-concatenating the chunks recovers the stream. -/
theorem chunksOf_flatten (n : Nat) (l : List Nat) (hn : 0 < n) :
    (chunksOf n l).flatten = l := by
  induction n, l using chunksOf.induct with
  | case1 l => omega
  | case2 m => simp [chunksOf]
  | case3 m a l ih =>
    rw [chunksOf_pos _ _ hn (by simp)]
    simp only [List.flatten_cons]
    rw [ih (Nat.succ_pos m), List.take_append_drop]

/-- Splitting the concatenation of the sealed chunks `chunkSize + 16` bytes
at a time recovers exactly the sealed chunks: every sealed chunk is 16
bytes (the GCM tag) longer than its plaintext chunk, so all but the last
occupy exactly `chunkSize + 16` bytes and the last at most that. -/
theorem chunksOf_flatten_sealed (enc : List Nat → List Nat → List Nat → List Nat)
    (key nonce : List Nat) (cs : Nat) (pt : List Nat) (hcs : 0 < cs)
    (hlen : ∀ p, (enc key nonce p).length = p.length + 16) :
    chunksOf (cs + 16) (((chunksOf cs pt).map (enc key nonce)).flatten)
      = (chunksOf cs pt).map (enc key nonce) := by
  induction cs, pt using chunksOf.induct with
  | case1 l => omega
  | case2 m => simp [chunksOf]
  | case3 m a l ih =>
    rw [chunksOf_pos _ _ hcs (by simp)]
    simp only [List.map_cons, List.flatten_cons]
    have hfirst : (enc key nonce ((a :: l).take (m + 1))).length
        = ((a :: l).take (m + 1)).length + 16 := hlen _
    have hne : enc key nonce ((a :: l).take (m + 1)) ≠ [] := by
      intro h
      rw [h] at hfirst
      simp at hfirst
    by_cases hsmall : (a :: l).length ≤ m + 1
    · have htake : (a :: l).take (m + 1) = a :: l := List.take_of_length_le hsmall
      have hdrop : (a :: l).drop (m + 1) = [] := List.drop_eq_nil_of_le hsmall
      rw [htake] at hne hfirst
      rw [htake, hdrop, chunksOf_nil]
      simp only [List.map_nil, List.flatten_nil, List.append_nil]
      rw [chunksOf_pos _ _ (by omega) hne]
      have h1 : (enc key nonce (a :: l)).length ≤ m + 1 + 16 := by
        rw [hfirst]
        omega
      rw [List.take_of_length_le h1, List.drop_eq_nil_of_le h1, chunksOf_nil]
    · have hlt : m + 1 < (a :: l).length := by omega
      have hfl : (enc key nonce ((a :: l).take (m + 1))).length = m + 1 + 16 := by
        rw [hfirst, List.length_take]
        omega
      have happ : enc key nonce ((a :: l).take (m + 1))
          ++ ((chunksOf (m + 1) ((a :: l).drop (m + 1))).map (enc key nonce)).flatten ≠ [] :=
        fun h => hne (List.append_eq_nil.mp h).1
      rw [chunksOf_pos _ _ (by omega) happ]
      rw [List.take_left' hfl, List.drop_left' hfl]
      rw [ih (Nat.succ_pos m)]

/-- When every sealed chunk opens successfully, the decryption loop writes
the concatenation of the recovered plaintexts and reports success. -/
theorem decryptChunkLoop_map (dec : List Nat → List Nat → List Nat → Option (List Nat))
    (enc : List Nat → List Nat → List Nat → List Nat) (key nonce : List Nat)
    (cl : List (List Nat))
    (hrt : ∀ p, dec key nonce (enc key nonce p) = Option.some p) :
    decryptChunkLoop dec key nonce (cl.map (enc key nonce)) = (cl.flatten, true) := by
  induction cl with
  | nil => rfl
  | cons c rest ih =>
    simp only [List.map_cons, List.flatten_cons, decryptChunkLoop, hrt c, ih]

theorem decryptChunkLoop_cons_some (dec : List Nat → List Nat → List Nat → Option (List Nat))
    (key nonce c px : List Nat) (rest : List (List Nat))
    (hpx : dec key nonce c = Option.some px) :
    decryptChunkLoop dec key nonce (c :: rest)
      = (px ++ (decryptChunkLoop dec key nonce rest).1,
         (decryptChunkLoop dec key nonce rest).2) := by
  simp [decryptChunkLoop, hpx]

theorem decryptChunkLoop_cons_none (dec : List Nat → List Nat → List Nat → Option (List Nat))
    (key nonce c : List Nat) (rest : List (List Nat))
    (hc : dec key nonce c = Option.none) :
    decryptChunkLoop dec key nonce (c :: rest) = ([], false) := by
  simp [decryptChunkLoop, hc]

/-- If the loop reaches a sealed chunk that fails authentication, the
output holds exactly the plaintexts of the chunks before it and the run
fails: the `InvalidTag` exception propagates before anything later is
decrypted or written. -/
theorem decryptChunkLoop_failure (dec : List Nat → List Nat → List Nat → Option (List Nat))
    (key nonce : List Nat) (pre : List (List Nat)) (c : List Nat)
    (post : List (List Nat))
    (hpre : ∀ x ∈ pre, (dec key nonce x).isSome)
    (hc : dec key nonce c = Option.none) :
    decryptChunkLoop dec key nonce (pre ++ c :: post)
      = ((pre.map (fun x => (dec key nonce x).getD [])).flatten, false) := by
  induction pre with
  | nil =>
    rw [List.nil_append, decryptChunkLoop_cons_none _ _ _ _ _ hc]
    rfl
  | cons x rest ih =>
    have hx : (dec key nonce x).isSome := hpre x (List.mem_cons_self x rest)
    obtain ⟨px, hpx⟩ := Option.isSome_iff_exists.mp hx
    have hrest := ih (fun y hy => hpre y (List.mem_cons_of_mem x hy))
    rw [List.cons_append, decryptChunkLoop_cons_some _ _ _ _ _ _ hpx, hrest]
    simp [hpx]

/-! ### A concrete AEAD instance used to exercise the cipher theorems.
It satisfies the interface facts the theorems assume of the library's
AES-GCM (`seal` appends a 16-byte tag; `open` inverts `seal` and rejects
inputs shorter than a tag).  It is a stand-in for witnesses only; the
theorems themselves hold for every conforming `enc`/`dec` pair. -/

def tagSeal (key nonce p : List Nat) : List Nat :=
  p ++ List.replicate 16 ((key.sum + nonce.sum + p.sum) % 256)

def tagOpen (key nonce c : List Nat) : Option (List Nat) :=
  if c.length < 16 then Option.none
  else
    let p := c.take (c.length - 16)
    if c = tagSeal key nonce p then Option.some p else Option.none

theorem tagSeal_length (key nonce p : List Nat) :
    (tagSeal key nonce p).length = p.length + 16 := by
  simp [tagSeal]

theorem tagOpen_tagSeal (key nonce p : List Nat) :
    tagOpen key nonce (tagSeal key nonce p) = Option.some p := by
  have hl : (tagSeal key nonce p).length = p.length + 16 := tagSeal_length key nonce p
  have htake : (tagSeal key nonce p).take ((tagSeal key nonce p).length - 16) = p := by
    rw [hl]
    simp [tagSeal]
  rw [tagOpen]
  rw [if_neg (by omega)]
  simp [htake]

/-! ### Cipher-level claim theorems -/

/-- C3.  Decrypting the output of `FileEncryption.encrypt_file` with
`FileEncryption.decrypt_file` under the same key and chunk size writes
back exactly the original plaintext and succeeds, for every plaintext
(in particular sizes 0, 1, one chunk, and several chunks plus a partial
final chunk), every key, every 12-byte nonce and every positive chunk
size, given the AES-GCM library facts: opening inverts sealing under the
same key and nonce, and a sealed chunk is 16 bytes longer than its
plaintext. -/
theorem encrypt_decrypt_roundtrip
    (enc : List Nat → List Nat → List Nat → List Nat)
    (dec : List Nat → List Nat → List Nat → Option (List Nat))
    (key nonce : List Nat) (cs : Nat) (pt : List Nat)
    (hcs : 0 < cs) (hn : nonce.length = 12)
    (hrt : ∀ p, dec key nonce (enc key nonce p) = Option.some p)
    (hlen : ∀ p, (enc key nonce p).length = p.length + 16) :
    decryptFile dec key cs (encryptFile enc key nonce cs pt) = (pt, true) := by
  rw [decryptFile, encryptFile]
  rw [List.take_left' hn, List.drop_left' hn]
  rw [chunksOf_flatten_sealed enc key nonce cs pt hcs hlen]
  rw [decryptChunkLoop_map dec enc key nonce _ hrt]
  rw [chunksOf_flatten cs pt hcs]

/-- Witness for C3: a three-chunk plaintext (two full 2-byte chunks and a
partial 1-byte final chunk) round-trips through the embedded
`encrypt_file`/`decrypt_file` with the concrete AEAD instance. -/
theorem encrypt_decrypt_roundtrip_witness :
    decryptFile tagOpen [9] 2
      (encryptFile tagSeal [9] [0, 1, 2, 3, 4, 5, 6, 7, 8, 9, 10, 11] 2 [20, 21, 22, 23, 24])
      = ([20, 21, 22, 23, 24], true) :=
  encrypt_decrypt_roundtrip tagSeal tagOpen [9] [0, 1, 2, 3, 4, 5, 6, 7, 8, 9, 10, 11] 2
    [20, 21, 22, 23, 24] (by decide) (by decide)
    (tagOpen_tagSeal [9] [0, 1, 2, 3, 4, 5, 6, 7, 8, 9, 10, 11])
    (tagSeal_length [9] [0, 1, 2, 3, 4, 5, 6, 7, 8, 9, 10, 11])

/-- C5.  If chunk `k` of the encrypted input fails AEAD authentication
(every earlier chunk opening, chunk `k` rejected), `decrypt_file` fails
and the output file holds exactly the plaintext of the chunks before `k`:
no byte of chunk `k` or of any later chunk is written, and no later chunk
is decrypted.  The chunk split of the input body is given explicitly as
`pre ++ c :: post`. -/
theorem decrypt_fail_closed
    (dec : List Nat → List Nat → List Nat → Option (List Nat))
    (key : List Nat) (cs : Nat) (file : List Nat)
    (pre : List (List Nat)) (c : List Nat) (post : List (List Nat))
    (hsplit : chunksOf (cs + 16) (file.drop 12) = pre ++ c :: post)
    (hpre : ∀ x ∈ pre, (dec key (file.take 12) x).isSome)
    (hc : dec key (file.take 12) c = Option.none) :
    decryptFile dec key cs file
      = ((pre.map (fun x => (dec key (file.take 12) x).getD [])).flatten, false) := by
  rw [decryptFile]
  rw [hsplit]
  exact decryptChunkLoop_failure dec key (file.take 12) pre c post hpre hc

/-- Witness for C5: a file whose first sealed chunk opens and whose second
is too short to authenticate; decryption fails having written only the
first chunk's plaintext. -/
theorem decrypt_fail_closed_witness :
    decryptFile tagOpen [9] 1
      (List.replicate 12 0 ++ tagSeal [9] (List.replicate 12 0) [30] ++ [1, 2, 3])
      = ([30], false) := by
  have h := decrypt_fail_closed tagOpen [9] 1
    (List.replicate 12 0 ++ tagSeal [9] (List.replicate 12 0) [30] ++ [1, 2, 3])
    [tagSeal [9] (List.replicate 12 0) [30]] [1, 2, 3] []
    (by simp [chunksOf, tagSeal]) (by decide) (by decide)
  rw [h]
  decide

/-- C1 evidence.  In `encrypt_file` every chunk is sealed with the one
per-file nonce, and `_encrypt_document` seals the OCR text blob with that
same nonce: for a two-chunk file the three AEAD seals all share one
nonce, so the seal nonces are not pairwise distinct. -/
theorem encrypt_document_nonce_reuse :
    encryptDocumentSealNonces 1 (List.replicate 12 7) [40, 41]
      = [List.replicate 12 7, List.replicate 12 7, List.replicate 12 7]
    ∧ ¬ List.Pairwise (fun a b => a ≠ b)
        (encryptDocumentSealNonces 1 (List.replicate 12 7) [40, 41]) := by
  have h : encryptDocumentSealNonces 1 (List.replicate 12 7) [40, 41]
      = [List.replicate 12 7, List.replicate 12 7, List.replicate 12 7] := by
    simp [encryptDocumentSealNonces, encryptFileSealNonces, chunksOf]
  refine ⟨h, ?_⟩
  rw [h]
  decide

/-! ## Tamper-proof audit log (`app/audit/logger.py`, `TamperProofLog`)

The log file is modelled as the list of its entries in file order.  `D` is
the type of the `data` field (an arbitrary JSON object) and `H` the type of
hash values; `hf` stands for the composite of `_calculate_hash`'s canonical
JSON serialization and BLAKE2b-256, applied to exactly the fields the
source hashes: `entry_id`, `timestamp`, `event`, `user_id`, `data`,
`previous_hash` (lines 71-86).  `h0` is the 64-zero genesis hash. -/

/-- The fields `_calculate_hash` feeds into the digest, in the source's
canonical serialization.  Note `ip_address` and `user_agent` are absent. -/
structure HashInput (D H : Type) where
  entry_id : Nat
  timestamp : String
  event : String
  user_id : Option Int
  data : D
  previous_hash : H
deriving DecidableEq

/-- One line of the audit log, with the fields `append` writes
(lines 50-59) plus the `hash` field added before writing (line 62). -/
structure Entry (D H : Type) where
  entry_id : Nat
  timestamp : String
  event : String
  user_id : Option Int
  ip_address : Option String
  user_agent : Option String
  data : D
  previous_hash : H
  hash : H
deriving DecidableEq

/-- `TamperProofLog._calculate_hash` (lines 71-86) applied to a stored
entry: digest of the six hashed fields (the `hash` field itself and the
request metadata are not hashed). -/
def calculateHash (hf : HashInput D H → H) (e : Entry D H) : H :=
  hf ⟨e.entry_id, e.timestamp, e.event, e.user_id, e.data, e.previous_hash⟩

/-- `TamperProofLog._get_last_hash` (lines 88-110): the `hash` field of the
last line, or the 64-zero hash for an empty file. -/
def getLastHash (h0 : H) (log : List (Entry D H)) : H :=
  match log.getLast? with
  | Option.none => h0
  | Option.some e => e.hash

/-- `TamperProofLog._get_next_id` (lines 112-133): last `entry_id` plus
one, or 1 for an empty file. -/
def getNextId (log : List (Entry D H)) : Nat :=
  match log.getLast? with
  | Option.none => 1
  | Option.some e => e.entry_id + 1

/-- The genesis entry written by `_ensure_log_file` (lines 21-42):
`entry_id` 0, event `LOG_INITIALIZED`, `previous_hash` the 64-zero hash;
the genesis line has no `user_id`, `ip_address` or `user_agent` keys, so
`entry.get('user_id')` yields `None` when it is hashed and re-verified. -/
def genesisEntry (hf : HashInput D H → H) (h0 : H) (ts : String) (gdata : D) :
    Entry D H :=
  { entry_id := 0, timestamp := ts, event := "LOG_INITIALIZED",
    user_id := Option.none, ip_address := Option.none, user_agent := Option.none,
    data := gdata, previous_hash := h0,
    hash := hf ⟨0, ts, "LOG_INITIALIZED", Option.none, gdata, h0⟩ }

/-- The caller-supplied and request-supplied inputs of one
`TamperProofLog.append` call. -/
structure AppendReq (D : Type) where
  timestamp : String
  event : String
  user_id : Option Int
  ip_address : Option String
  user_agent : Option String
  data : D

/-- `TamperProofLog.append` (lines 44-69): read the tail hash, build the
entry with the next id, hash it, and append it to the file. -/
def appendEntry (hf : HashInput D H → H) (h0 : H) (log : List (Entry D H))
    (r : AppendReq D) : List (Entry D H) :=
  let ph := getLastHash h0 log
  let eid := getNextId log
  log ++ [{ entry_id := eid, timestamp := r.timestamp, event := r.event,
            user_id := r.user_id, ip_address := r.ip_address,
            user_agent := r.user_agent, data := r.data, previous_hash := ph,
            hash := hf ⟨eid, r.timestamp, r.event, r.user_id, r.data, ph⟩ }]

/-- A log as produced by initialization followed by a sequence of `append`
calls: the genesis entry, then one entry per request. -/
def buildLog (hf : HashInput D H → H) (h0 : H) (ts0 : String) (gdata : D)
    (reqs : List (AppendReq D)) : List (Entry D H) :=
  reqs.foldl (appendEntry hf h0) [genesisEntry hf h0 ts0 gdata]

/-- A discrepancy reported by `verify_integrity` (the dicts appended to
`issues`, lines 156-171). -/
inductive Discrepancy (H : Type) where
  | broken_chain (entry_id : Nat) (expected_previous actual_previous : H)
  | invalid_hash (entry_id : Nat) (expected actual : H)
deriving DecidableEq

/-- Python truthiness of the `end_id and entry['entry_id'] > end_id`
break condition (line 151): `None` and `0` are both falsy. -/
def endBreak (end_id : Option Nat) (eid : Nat) : Bool :=
  match end_id with
  | Option.none => false
  | Option.some m => if m = 0 then false else decide (eid > m)

/-- The loop of `TamperProofLog.verify_integrity` (lines 135-181), with
`ph` the running `previous_hash` variable.  Entries below `start_id` are
skipped without updating `ph` (line 150); the break returns the issues
collected so far; both checks can fire on one entry; `ph` is then set to
the entry's stored hash (line 173) even when a check failed. -/
def verifyFrom (hf : HashInput D H → H) [DecidableEq H] (start_id : Nat)
    (end_id : Option Nat) : List (Entry D H) → H → List (Discrepancy H)
  | [], _ => []
  | e :: rest, ph =>
    if e.entry_id < start_id then verifyFrom hf start_id end_id rest ph
    else if endBreak end_id e.entry_id then []
    else
      (if e.previous_hash ≠ ph
        then [Discrepancy.broken_chain e.entry_id ph e.previous_hash] else [])
      ++ (if calculateHash hf e ≠ e.hash
        then [Discrepancy.invalid_hash e.entry_id (calculateHash hf e) e.hash] else [])
      ++ verifyFrom hf start_id end_id rest e.hash

/-- `TamperProofLog.verify_integrity(start_id, end_id)`: run the loop over
the whole file with `previous_hash` initialised to the 64-zero hash. -/
def verifyIntegrity (hf : HashInput D H → H) [DecidableEq H] (h0 : H)
    (log : List (Entry D H)) (start_id : Nat) (end_id : Option Nat) :
    List (Discrepancy H) :=
  verifyFrom hf start_id end_id log h0

/-- The hash-chain invariant relative to a running previous hash: each
entry's `previous_hash` equals the hash of its predecessor (or the seed),
and each entry's stored `hash` recomputes from its own fields. -/
def ChainValid (hf : HashInput D H → H) : H → List (Entry D H) → Prop
  | _, [] => True
  | ph, e :: rest =>
    e.previous_hash = ph ∧ e.hash = calculateHash hf e ∧ ChainValid hf e.hash rest

theorem getLastHash_cons (h : H) (x : Entry D H) (rest : List (Entry D H)) :
    getLastHash h (x :: rest) = getLastHash x.hash rest := by
  cases rest with
  | nil => rfl
  | cons y t =>
    rw [getLastHash, getLastHash, List.getLast?_cons_cons]
    cases hle : (y :: t).getLast? with
    | none => exact absurd hle (by simp)
    | some e => rfl

/-- A chain-valid log passes every check of the verification loop over the
full range: no discrepancy is reported, for any `end_id`. -/
theorem verifyFrom_of_chainValid (hf : HashInput D H → H) [DecidableEq H]
    (end_id : Option Nat) (l : List (Entry D H)) (ph : H)
    (hcv : ChainValid hf ph l) :
    verifyFrom hf 0 end_id l ph = [] := by
  induction l generalizing ph with
  | nil => rfl
  | cons e rest ih =>
    obtain ⟨hprev, hhash, hrest⟩ := hcv
    rw [verifyFrom]
    rw [if_neg (by omega)]
    by_cases hb : endBreak end_id e.entry_id
    · rw [if_pos hb]
    · rw [if_neg hb]
      rw [if_neg (by simp [hprev]), if_neg (by simp [hhash]), ih e.hash hrest]
      rfl

/-- Appending a correctly linked, correctly hashed entry preserves chain
validity. -/
theorem chainValid_append_entry (hf : HashInput D H → H) (ph : H)
    (l : List (Entry D H)) (e : Entry D H) (hcv : ChainValid hf ph l)
    (hprev : e.previous_hash = getLastHash ph l)
    (hhash : e.hash = calculateHash hf e) :
    ChainValid hf ph (l ++ [e]) := by
  induction l generalizing ph with
  | nil => exact ⟨hprev, hhash, trivial⟩
  | cons x rest ih =>
    obtain ⟨hxprev, hxhash, hxrest⟩ := hcv
    rw [getLastHash_cons] at hprev
    exact ⟨hxprev, hxhash, ih x.hash hxrest hprev⟩

/-- Every log produced by genesis initialization followed by a sequence of
`append` calls is chain valid. -/
theorem buildLog_chainValid (hf : HashInput D H → H) (h0 : H) (ts0 : String)
    (gdata : D) (reqs : List (AppendReq D)) :
    ChainValid hf h0 (buildLog hf h0 ts0 gdata reqs) := by
  have hgen : ChainValid hf h0 [genesisEntry hf h0 ts0 gdata] :=
    ⟨rfl, rfl, trivial⟩
  rw [buildLog]
  generalize [genesisEntry hf h0 ts0 gdata] = log at hgen ⊢
  induction reqs generalizing log with
  | nil => exact hgen
  | cons r rest ih =>
    rw [List.foldl_cons]
    exact ih _ (chainValid_append_entry hf h0 log _ hgen rfl rfl)

/-- Splitting a chain-valid log around one entry: the first part is chain
valid, the entry links to it and recomputes, and the tail is chain valid
seeded with the entry's hash. -/
theorem chainValid_split (hf : HashInput D H → H) (ph : H)
    (l1 : List (Entry D H)) (e : Entry D H) (l2 : List (Entry D H))
    (hcv : ChainValid hf ph (l1 ++ e :: l2)) :
    ChainValid hf ph l1 ∧ e.previous_hash = getLastHash ph l1
      ∧ e.hash = calculateHash hf e ∧ ChainValid hf e.hash l2 := by
  induction l1 generalizing ph with
  | nil => exact ⟨trivial, hcv.1, hcv.2.1, hcv.2.2⟩
  | cons x rest ih =>
    obtain ⟨hxprev, hxhash, hxrest⟩ := hcv
    obtain ⟨h1, h2, h3, h4⟩ := ih x.hash hxrest
    exact ⟨⟨hxprev, hxhash, h1⟩, by rw [getLastHash_cons]; exact h2, h3, h4⟩

/-- The verification loop over the full range distributes over
concatenation, the second part seeded with the stored hash of the first
part's last entry. -/
theorem verifyFrom_zero_cons (hf : HashInput D H → H) [DecidableEq H]
    (e : Entry D H) (rest : List (Entry D H)) (ph : H) :
    verifyFrom hf 0 Option.none (e :: rest) ph
      = (if e.previous_hash ≠ ph
          then [Discrepancy.broken_chain e.entry_id ph e.previous_hash] else [])
        ++ (if calculateHash hf e ≠ e.hash
          then [Discrepancy.invalid_hash e.entry_id (calculateHash hf e) e.hash] else [])
        ++ verifyFrom hf 0 Option.none rest e.hash := by
  rw [verifyFrom, if_neg (Nat.not_lt_zero _)]
  rfl

theorem verifyFrom_append (hf : HashInput D H → H) [DecidableEq H]
    (a b : List (Entry D H)) (ph : H) :
    verifyFrom hf 0 Option.none (a ++ b) ph
      = verifyFrom hf 0 Option.none a ph
        ++ verifyFrom hf 0 Option.none b (getLastHash ph a) := by
  induction a generalizing ph with
  | nil => rfl
  | cons x rest ih =>
    rw [List.cons_append, verifyFrom_zero_cons, verifyFrom_zero_cons, ih x.hash,
      getLastHash_cons]
    simp [List.append_assoc]

/-- C2 (amended).  For every sequence of `append` calls starting from a
fresh genesis log, `verify_integrity` over the full range (`start_id = 0`,
any `end_id`) reports zero discrepancies: every stored hash recomputes and
every `previous_hash` links to its predecessor. -/
theorem verify_full_range_clean (D H : Type) [DecidableEq D] [DecidableEq H]
    (hf : HashInput D H → H) (h0 : H) (ts0 : String) (gdata : D)
    (reqs : List (AppendReq D)) (end_id : Option Nat) :
    verifyIntegrity hf h0 (buildLog hf h0 ts0 gdata reqs) 0 end_id = [] :=
  verifyFrom_of_chainValid hf end_id _ h0
    (buildLog_chainValid hf h0 ts0 gdata reqs)

/-! ### A concrete ideal hash for counterexamples and witnesses.
`MHash.digest` packages the six hashed fields into a constructor, so the
function is injective: the standard idealisation of a collision-resistant
digest, and enough to evaluate the log operations on concrete inputs. -/

inductive MHash where
  | zero : MHash
  | digest (entry_id : Nat) (timestamp event : String) (user_id : Option Int)
      (data : String) (previous_hash : MHash) : MHash
deriving DecidableEq

def mhashFn : HashInput String MHash → MHash :=
  fun i => MHash.digest i.entry_id i.timestamp i.event i.user_id i.data i.previous_hash

theorem mhashFn_injective : Function.Injective mhashFn := by
  intro a b h
  cases a
  cases b
  simp only [mhashFn, MHash.digest.injEq] at h
  simp [h.1, h.2.1, h.2.2.1, h.2.2.2.1, h.2.2.2.2.1, h.2.2.2.2.2]

/-- Witness for the amended C2 on a concrete two-append log, checked over
the full range with `end_id` the last entry id. -/
theorem verify_full_range_clean_witness :
    verifyIntegrity mhashFn MHash.zero
      (buildLog mhashFn MHash.zero "t0" "g"
        [⟨"t1", "EV", Option.none, Option.none, Option.none, "d1"⟩,
         ⟨"t2", "EW", Option.some 4, Option.some "ip", Option.some "ua", "d2"⟩])
      0 (Option.some 2) = [] :=
  verify_full_range_clean String MHash mhashFn MHash.zero "t0" "g"
    [⟨"t1", "EV", Option.none, Option.none, Option.none, "d1"⟩,
     ⟨"t2", "EW", Option.some 4, Option.some "ip", Option.some "ua", "d2"⟩]
    (Option.some 2)

/-- C2 counterexample.  On an untampered two-entry log (genesis plus one
append), `verify_integrity(start_id = 1)` reports a discrepancy: the loop
skips the genesis entry without advancing its running `previous_hash`, so
entry 1's correct `previous_hash` is flagged as `broken_chain`.  The claim
"for every range … an empty discrepancy list" is therefore false. -/
theorem verify_nonzero_start_not_clean :
    verifyIntegrity mhashFn MHash.zero
      (buildLog mhashFn MHash.zero "t0" "g"
        [⟨"t1", "EV", Option.none, Option.none, Option.none, "d1"⟩])
      1 Option.none ≠ [] := by
  decide

/-- C4.  Take any log built by `append` calls, written `l1 ++ e :: l2`,
and replace entry `e`'s `data` field by a different value — as any
single-byte change to the stored data value does (the log is modelled at
the parsed-entry level, so the line stays well-formed JSON) — without
recomputing hashes.  Provided the
digest is collision free (modelled as injectivity), `verify_integrity`
over the full range reports exactly one discrepancy: an `invalid_hash`
carrying the modified entry's id.  No `broken_chain` and no discrepancy
at any other entry is reported, because the chain linkage compares only
the stored hash fields, which are unchanged. -/
theorem tamper_data_single_invalid_hash (D H : Type) [DecidableEq D] [DecidableEq H]
    (hf : HashInput D H → H) (hInj : Function.Injective hf) (h0 : H)
    (ts0 : String) (gdata : D) (reqs : List (AppendReq D))
    (l1 : List (Entry D H)) (e : Entry D H) (l2 : List (Entry D H)) (d' : D)
    (hlog : buildLog hf h0 ts0 gdata reqs = l1 ++ e :: l2)
    (hd : d' ≠ e.data) :
    verifyIntegrity hf h0 (l1 ++ { e with data := d' } :: l2) 0 Option.none
      = [Discrepancy.invalid_hash e.entry_id
          (calculateHash hf { e with data := d' }) e.hash] := by
  have hcv := buildLog_chainValid hf h0 ts0 gdata reqs
  rw [hlog] at hcv
  obtain ⟨h1, h2, h3, h4⟩ := chainValid_split hf h0 l1 e l2 hcv
  rw [verifyIntegrity, verifyFrom_append,
    verifyFrom_of_chainValid hf Option.none l1 h0 h1, verifyFrom_zero_cons]
  have hne : calculateHash hf ({ e with data := d' } : Entry D H)
      ≠ ({ e with data := d' } : Entry D H).hash := by
    intro hcontra
    have heq : calculateHash hf ({ e with data := d' } : Entry D H)
        = calculateHash hf e := by rw [hcontra]; exact h3
    have := hInj heq
    simp only [HashInput.mk.injEq] at this
    exact hd this.2.2.2.2.1
  rw [if_neg (not_not_intro h2), if_pos hne,
    verifyFrom_of_chainValid hf Option.none l2 _ h4]
  simp

/-- Sample genesis entry over the ideal hash, for concrete evaluations. -/
def sampleGenesis : Entry String MHash :=
  genesisEntry mhashFn MHash.zero "t0" "g"

/-- The entry a first `append("EV", data="d1")` call adds after genesis. -/
def sampleEntry1 : Entry String MHash :=
  { entry_id := 1, timestamp := "t1", event := "EV", user_id := Option.none,
    ip_address := Option.none, user_agent := Option.none, data := "d1",
    previous_hash := sampleGenesis.hash,
    hash := mhashFn ⟨1, "t1", "EV", Option.none, "d1", sampleGenesis.hash⟩ }

/-- Witness for C4: on the concrete two-entry log with entry 1's data
changed from `d1` to `dX`, verification reports exactly the single
`invalid_hash` at entry 1. -/
theorem tamper_data_single_invalid_hash_witness :
    ("dX" ≠ sampleEntry1.data) ∧
    verifyIntegrity mhashFn MHash.zero
      ([sampleGenesis] ++ { sampleEntry1 with data := "dX" } :: []) 0 Option.none
      = [Discrepancy.invalid_hash sampleEntry1.entry_id
          (calculateHash mhashFn { sampleEntry1 with data := "dX" })
          sampleEntry1.hash] :=
  ⟨by decide,
   tamper_data_single_invalid_hash String MHash mhashFn mhashFn_injective
     MHash.zero "t0" "g"
     [⟨"t1", "EV", Option.none, Option.none, Option.none, "d1"⟩]
     [sampleGenesis] sampleEntry1 [] "dX" (by decide) (by decide)⟩

/-- C10.  The entry hash covers only `entry_id`, `timestamp`, `event`,
`user_id`, `data` and `previous_hash`: rewriting a stored entry's
`ip_address` and `user_agent` fields after the fact leaves a log on which
`verify_integrity` reports zero discrepancies — that tampering is
undetectable by the integrity check. -/
theorem tamper_request_metadata_undetected (D H : Type) [DecidableEq D]
    [DecidableEq H] (hf : HashInput D H → H) (h0 : H) (ts0 : String)
    (gdata : D) (reqs : List (AppendReq D)) (l1 : List (Entry D H))
    (e : Entry D H) (l2 : List (Entry D H)) (ip' ua' : Option String)
    (hlog : buildLog hf h0 ts0 gdata reqs = l1 ++ e :: l2) :
    verifyIntegrity hf h0
      (l1 ++ { e with ip_address := ip', user_agent := ua' } :: l2)
      0 Option.none = [] := by
  have hcv := buildLog_chainValid hf h0 ts0 gdata reqs
  rw [hlog] at hcv
  obtain ⟨h1, h2, h3, h4⟩ := chainValid_split hf h0 l1 e l2 hcv
  rw [verifyIntegrity, verifyFrom_append,
    verifyFrom_of_chainValid hf Option.none l1 h0 h1, verifyFrom_zero_cons]
  have hhash : calculateHash hf ({ e with ip_address := ip', user_agent := ua' } : Entry D H)
      = ({ e with ip_address := ip', user_agent := ua' } : Entry D H).hash :=
    h3.symm
  rw [if_neg (not_not_intro h2), if_neg (not_not_intro hhash),
    verifyFrom_of_chainValid hf Option.none l2 _ h4]
  simp

/-- Witness for C10: overwriting entry 1's `ip_address`/`user_agent` on
the concrete two-entry log is not reported by verification. -/
theorem tamper_request_metadata_undetected_witness :
    verifyIntegrity mhashFn MHash.zero
      ([sampleGenesis] ++
        { sampleEntry1 with ip_address := Option.some "10.0.0.9",
                            user_agent := Option.some "curl/8" } :: [])
      0 Option.none = [] :=
  tamper_request_metadata_undetected String MHash mhashFn MHash.zero "t0" "g"
    [⟨"t1", "EV", Option.none, Option.none, Option.none, "d1"⟩]
    [sampleGenesis] sampleEntry1 []
    (Option.some "10.0.0.9") (Option.some "curl/8") (by decide)

/-! ## Atomicity of `append` (C6)

`append` writes the entry with `json.dump(entry, f)` on a file opened in
append mode (lines 65-67).  `json.dump` streams the serialization chunk by
chunk into the file handle; if serializing a value raises (for example a
`data` dict holding a non-JSON-serializable object), the chunks already
emitted have been written, the `with` block closes (and thereby flushes)
the file, and the trailing newline is never written — a torn entry.  The
model below serializes the entry's key/value pairs left to right in
insertion order, stopping at the first unserializable value, exactly as
`json.dump` does at one level of granularity. -/

/-- A Python value stored in the entry dict: JSON-serializable scalars, or
an object the `json` module rejects with `TypeError` (`unser`). -/
inductive PyVal where
  | pstr (s : String)
  | pnum (n : Int)
  | pnull
  | unser
deriving DecidableEq

/-- Serialization of one value; `Option.none` models the `TypeError`. -/
def serializeVal : PyVal → Option String
  | PyVal.pstr s => Option.some ("\x22" ++ s ++ "\x22")
  | PyVal.pnum n => Option.some (toString n)
  | PyVal.pnull => Option.some "null"
  | PyVal.unser => Option.none

/-- The incremental dict serialization loop of `json.dump` with
`separators=(',', ':')`: emit `\x7b`, then `\x22key\x22:value` pairs
separated by commas.  Returns the text written to the file before either
finishing (`true`) or raising mid-entry (`false`). -/
def dumpDictGo : List (String × PyVal) → String → Bool → String × Bool
  | [], acc, _ => (acc ++ "\x7d", true)
  | (k, v) :: rest, acc, first =>
    let acc2 := acc ++ (if first then "" else ",") ++ "\x22" ++ k ++ "\x22:"
    match serializeVal v with
    | Option.none => (acc2, false)
    | Option.some s => dumpDictGo rest (acc2 ++ s) false

def dumpDict (kvs : List (String × PyVal)) : String × Bool :=
  dumpDictGo kvs "\x7b" true

/-- The body of `append`'s write (lines 65-67) at the file level: the text
of `json.dump` goes to the file as it is produced; the newline follows
only if the dump finished.  Returns the file content afterwards and
whether the call succeeded. -/
def appendWrite (file : String) (kvs : List (String × PyVal)) : String × Bool :=
  let r := dumpDict kvs
  if r.2 then (file ++ r.1 ++ "\n", true) else (file ++ r.1, false)

/-- An entry whose `data` dict holds a non-serializable value, in the
field order `append` builds (lines 50-62). -/
def tornEntryKVs : List (String × PyVal) :=
  [("entry_id", PyVal.pnum 1), ("timestamp", PyVal.pstr "t1"),
   ("event", PyVal.pstr "EV"), ("user_id", PyVal.pnull),
   ("ip_address", PyVal.pnull), ("user_agent", PyVal.pnull),
   ("data", PyVal.unser), ("previous_hash", PyVal.pstr "aa"),
   ("hash", PyVal.pstr "bb")]

/-- A one-line genesis file content. -/
def genesisFileText : String :=
  "\x7b\x22entry_id\x22:0\x7d\n"

set_option maxRecDepth 4000 in
/-- C6 evidence.  Appending an entry whose `data` holds a
non-JSON-serializable value fails, yet leaves the log file different from
its pre-call state: the serialized prefix up to `\x22data\x22:` stands as
a half-written entry with no terminating newline.  This refutes "the call
fails and the log file is byte-for-byte identical to its pre-call state";
the spec's required atomic append (and torn-write repair on open) is not
implemented. -/
theorem append_torn_write :
    (appendWrite genesisFileText tornEntryKVs).2 = false
    ∧ (appendWrite genesisFileText tornEntryKVs).1 ≠ genesisFileText
    ∧ (appendWrite genesisFileText tornEntryKVs).1.data.getLast? ≠ Option.some '\n' := by
  refine ⟨by decide, by decide, by decide⟩

/-! ## Upload pipeline (`app/documents/processing.py`, `DocumentProcessor`)

`process_upload` is modelled as a pure function of an environment that
fixes what each effectful step would do: the MIME type `python-magic`
detects, whether the temp-file write / conversion / encryption / storage
steps succeed (and the `str(e)` message when they raise), and the OCR
outcome.  The function returns the value `process_upload` produces (or
the exception it re-raises), the audit events appended via
`log_document_event`, and the files existing on disk afterwards.

File inventory: `temp` is the `tempfile.mkstemp` upload copy, `processed`
the converted image (`…_processed.webp` / `…_page1.png`), `encTemp` the
ciphertext `f"\x7bimage_path\x7d.enc"` written by `_encrypt_document`,
`finalDoc` and `finalText` the persisted ciphertext and encrypted OCR
text written by `_save_to_storage`.  The `finally` block (lines 107-111)
unlinks exactly `temp_path` and `processed_path` when they exist. -/

/-- `DocumentProcessor.SUPPORTED_FORMATS` (lines 29-33). -/
def SUPPORTED_FORMATS : List String :=
  ["image/jpeg", "image/png", "image/tiff", "image/bmp",
   "image/webp", "image/heif", "image/heic", "application/pdf"]

inductive FsPath where
  | temp | processed | encTemp | finalDoc | finalText
deriving DecidableEq

/-- A value in the `data` dict of an audit event. -/
inductive LVal where
  | s (v : String)
  | n (v : Nat)
deriving DecidableEq

/-- One `TamperProofLog.append` call made through `log_document_event`
(which prefixes the event name with `DOCUMENT_`). -/
structure LogEvent where
  event : String
  user_id : Option Nat
  data : List (String × LVal)
deriving DecidableEq

/-- Outcome of `_run_ocr` (lines 206-252): a successful extraction, the
`asyncio.TimeoutError` branch, or another exception; the latter two return
`\x7b'text': '', 'confidence': 0, 'error': …\x7d` instead of raising. -/
inductive OcrOutcome where
  | ok (text : String) (confidence : Nat)
  | timeout
  | failed (msg : String)
deriving DecidableEq

/-- What `process_upload` returns: the success dict, or the exception it
re-raises after logging `PROCESSING_FAILED`. -/
inductive PipeResult where
  | ok (document_id : Nat) (ocr_text : String) (confidence : Nat)
  | raised (msg : String)
deriving DecidableEq

/-- Environment of one `process_upload` run: what each effectful
collaborator does.  `…Msg` fields are the `str(e)` of the exception the
corresponding step raises when its `…Ok` flag is false. -/
structure PipeEnv where
  filename : String
  mime : String
  saveTempOk : Bool
  saveTempMsg : String
  convertOk : Bool
  convertMsg : String
  ocr : OcrOutcome
  encryptOk : Bool
  encryptMsg : String
  storageOk : Bool
  storageMsg : String
  size : Nat
  docId : Nat
  patient_id : Nat
  user_id : Nat

/-- The `finally` block (lines 107-111): unlink `temp_path` and
`processed_path` if set and existing.  When a step failed before creating
one of them, the variable is `None` and the file also does not exist, so
the unconditional filter is extensionally the same. -/
def cleanupTmp (files : List FsPath) : List FsPath :=
  files.filter (fun p => decide (p ≠ FsPath.temp ∧ p ≠ FsPath.processed))

/-- The `log_document_event('PROCESSING_FAILED', …)` append of the except
branch (lines 101-104). -/
def failEvent (env : PipeEnv) (msg : String) : LogEvent :=
  { event := "DOCUMENT_PROCESSING_FAILED", user_id := Option.some env.user_id,
    data := [("error", LVal.s msg), ("filename", LVal.s env.filename)] }

/-- The `log_document_event('DOCUMENT_UPLOADED', …)` append of the success
path (lines 84-90); note the helper prefixes `DOCUMENT_` again.  The data
dict holds ids, filename, byte size and the OCR confidence — nothing
else. -/
def successEvent (env : PipeEnv) (conf : Nat) : LogEvent :=
  { event := "DOCUMENT_DOCUMENT_UPLOADED", user_id := Option.some env.user_id,
    data := [("document_id", LVal.n env.docId),
             ("patient_id", LVal.n env.patient_id),
             ("filename", LVal.s env.filename),
             ("size", LVal.n env.size),
             ("ocr_confidence", LVal.n conf)] }

/-- `ocr_result.get('text', '')`: empty on timeout or failure. -/
def ocrText : OcrOutcome → String
  | OcrOutcome.ok t _ => t
  | _ => ""

/-- `ocr_result.get('confidence', 0)`: zero on timeout or failure. -/
def ocrConfidence : OcrOutcome → Nat
  | OcrOutcome.ok _ c => c
  | _ => 0

/-- `DocumentProcessor.process_upload` (lines 49-111).  Steps in order:
save temp file (on write failure `_save_temp_file` unlinks the temp file
and re-raises); detect MIME and reject anything outside
`SUPPORTED_FORMATS` with `ValueError(f"Unsupported file type: \x7bmime\x7d")`;
convert (creates `processed` only on success); `_run_ocr` (never raises);
`_encrypt_document` (opens and writes `encTemp`, which stays behind —
possibly half-written — if encryption raises); `_save_to_storage` (on
success renames `encTemp` to `finalDoc` and writes `finalText`; modelled
failure point is the database flush, before the rename).  Every exception
is logged as one `PROCESSING_FAILED` event and re-raised; the `finally`
block removes `temp` and `processed`. -/
def processUpload (env : PipeEnv) : PipeResult × List LogEvent × List FsPath :=
  if ¬ env.saveTempOk then
    (PipeResult.raised env.saveTempMsg, [failEvent env env.saveTempMsg],
     cleanupTmp [])
  else if env.mime ∉ SUPPORTED_FORMATS then
    (PipeResult.raised ("Unsupported file type: " ++ env.mime),
     [failEvent env ("Unsupported file type: " ++ env.mime)],
     cleanupTmp [FsPath.temp])
  else if ¬ env.convertOk then
    (PipeResult.raised env.convertMsg, [failEvent env env.convertMsg],
     cleanupTmp [FsPath.temp])
  else if ¬ env.encryptOk then
    (PipeResult.raised env.encryptMsg, [failEvent env env.encryptMsg],
     cleanupTmp [FsPath.temp, FsPath.processed, FsPath.encTemp])
  else if ¬ env.storageOk then
    (PipeResult.raised env.storageMsg, [failEvent env env.storageMsg],
     cleanupTmp [FsPath.temp, FsPath.processed, FsPath.encTemp])
  else
    (PipeResult.ok env.docId (ocrText env.ocr) (ocrConfidence env.ocr),
     [successEvent env (ocrConfidence env.ocr)],
     cleanupTmp [FsPath.temp, FsPath.processed, FsPath.finalDoc, FsPath.finalText])

/-- Does an audit event record a timeout anywhere in its data dict —
an `error` key, or a value equal to the string `timeout`? -/
def mentionsTimeout (ev : LogEvent) : Bool :=
  ev.data.any (fun kv => kv.1 == "error" || kv.2 == LVal.s "timeout")

/-- C7 (amended).  When the OCR step times out and every other step
succeeds, `process_upload` still completes successfully: it returns the
success dict with empty text and confidence 0, appends exactly one audit
event (the generic `DOCUMENT_UPLOADED` event with `ocr_confidence` 0 —
which carries no mention of the timeout), and leaves only the persisted
ciphertext and its encrypted OCR text on disk: no temporary file
remains. -/
theorem process_upload_ocr_timeout (env : PipeEnv)
    (hsave : env.saveTempOk = true) (hmime : env.mime ∈ SUPPORTED_FORMATS)
    (hconv : env.convertOk = true) (henc : env.encryptOk = true)
    (hstore : env.storageOk = true) (hocr : env.ocr = OcrOutcome.timeout) :
    processUpload env
      = (PipeResult.ok env.docId "" 0, [successEvent env 0],
         [FsPath.finalDoc, FsPath.finalText]) := by
  rw [processUpload]
  rw [if_neg (by simp [hsave]), if_neg (by simp [hmime]),
    if_neg (by simp [hconv]), if_neg (by simp [henc]),
    if_neg (by simp [hstore]), hocr]
  rfl

/-- Witness for C7 (amended): a concrete timed-out run. -/
theorem process_upload_ocr_timeout_witness :
    processUpload
      { filename := "scan.jpg", mime := "image/jpeg", saveTempOk := true,
        saveTempMsg := "", convertOk := true, convertMsg := "",
        ocr := OcrOutcome.timeout, encryptOk := true, encryptMsg := "",
        storageOk := true, storageMsg := "", size := 2048, docId := 7,
        patient_id := 3, user_id := 5 }
      = (PipeResult.ok 7 "" 0,
         [successEvent
           { filename := "scan.jpg", mime := "image/jpeg", saveTempOk := true,
             saveTempMsg := "", convertOk := true, convertMsg := "",
             ocr := OcrOutcome.timeout, encryptOk := true, encryptMsg := "",
             storageOk := true, storageMsg := "", size := 2048, docId := 7,
             patient_id := 3, user_id := 5 } 0],
         [FsPath.finalDoc, FsPath.finalText]) :=
  process_upload_ocr_timeout _ rfl (by decide) rfl rfl rfl rfl

/-- C7 counterexample.  On a concrete timed-out run the single appended
ledger event is the generic success event; its data dict holds only
`document_id`, `patient_id`, `filename`, `size` and `ocr_confidence` — no
`error` key and no `timeout` value.  The `'error': 'timeout'` marker
`_run_ocr` returns is dropped before logging, so the claim's "ledger
entry … noting the timeout" is false. -/
theorem process_upload_timeout_not_noted :
    (processUpload
      { filename := "scan.jpg", mime := "image/jpeg", saveTempOk := true,
        saveTempMsg := "", convertOk := true, convertMsg := "",
        ocr := OcrOutcome.timeout, encryptOk := true, encryptMsg := "",
        storageOk := true, storageMsg := "", size := 2048, docId := 7,
        patient_id := 3, user_id := 5 }).2.1.length = 1
    ∧ ((processUpload
      { filename := "scan.jpg", mime := "image/jpeg", saveTempOk := true,
        saveTempMsg := "", convertOk := true, convertMsg := "",
        ocr := OcrOutcome.timeout, encryptOk := true, encryptMsg := "",
        storageOk := true, storageMsg := "", size := 2048, docId := 7,
        patient_id := 3, user_id := 5 }).2.1.all
          (fun ev => !mentionsTimeout ev)) = true := by
  refine ⟨by decide, by decide⟩

/-- C8.  An upload whose detected content type is outside
`SUPPORTED_FORMATS` raises `ValueError("Unsupported file type: …")`
naming the offending type, appends exactly one `PROCESSING_FAILED` event
carrying that message, never encrypts or persists anything, and leaves
zero files behind (only the temp copy existed and the `finally` block
removes it). -/
theorem process_upload_unsupported_format (env : PipeEnv)
    (hsave : env.saveTempOk = true) (hmime : env.mime ∉ SUPPORTED_FORMATS) :
    processUpload env
      = (PipeResult.raised ("Unsupported file type: " ++ env.mime),
         [failEvent env ("Unsupported file type: " ++ env.mime)], []) := by
  rw [processUpload]
  rw [if_neg (by simp [hsave]), if_pos hmime]
  rfl

/-- Witness for C8: a `text/plain` upload. -/
theorem process_upload_unsupported_format_witness :
    processUpload
      { filename := "notes.txt", mime := "text/plain", saveTempOk := true,
        saveTempMsg := "", convertOk := true, convertMsg := "",
        ocr := OcrOutcome.ok "" 0, encryptOk := true, encryptMsg := "",
        storageOk := true, storageMsg := "", size := 10, docId := 1,
        patient_id := 1, user_id := 1 }
      = (PipeResult.raised "Unsupported file type: text/plain",
         [failEvent
           { filename := "notes.txt", mime := "text/plain", saveTempOk := true,
             saveTempMsg := "", convertOk := true, convertMsg := "",
             ocr := OcrOutcome.ok "" 0, encryptOk := true, encryptMsg := "",
             storageOk := true, storageMsg := "", size := 10, docId := 1,
             patient_id := 1, user_id := 1 } "Unsupported file type: text/plain"],
         []) :=
  process_upload_unsupported_format _ rfl (by decide)

/-- C9 evidence.  When `_save_to_storage` fails after a successful
`_encrypt_document` (for example the database flush raises), the pipeline
aborts and logs the failure, but the ciphertext `processed_path + ".enc"`
survives: the `finally` block removes only `temp_path` and
`processed_path`, so the claim that every intermediate — including
half-written or orphaned ciphertext — is deleted on every exit path is
false.  (An encryption failure after the output file is opened strands
the same file.) -/
theorem process_upload_storage_failure_leaves_ciphertext :
    processUpload
      { filename := "scan.jpg", mime := "image/jpeg", saveTempOk := true,
        saveTempMsg := "", convertOk := true, convertMsg := "",
        ocr := OcrOutcome.ok "hello" 88, encryptOk := true, encryptMsg := "",
        storageOk := false, storageMsg := "db unavailable", size := 2048,
        docId := 7, patient_id := 3, user_id := 5 }
      = (PipeResult.raised "db unavailable",
         [failEvent
           { filename := "scan.jpg", mime := "image/jpeg", saveTempOk := true,
             saveTempMsg := "", convertOk := true, convertMsg := "",
             ocr := OcrOutcome.ok "hello" 88, encryptOk := true, encryptMsg := "",
             storageOk := false, storageMsg := "db unavailable", size := 2048,
             docId := 7, patient_id := 3, user_id := 5 } "db unavailable"],
         [FsPath.encTemp]) := by
  decide

end CMH
